import Mathlib

/-!
# fs-capture: a shallow embedding of `lib/fs-capture.js`

The module exports one function, `CAP_ENGINE.Handler(path, options, cb)`, which builds a
list of candidate paths from `path`, `options.extension` and `options.sort`, and hands it
to `CAP_ENGINE.Processor`, which stats every candidate, turns `ENOENT` into absence and
keeps the entries that exist.

Modelling choices.
* The filesystem is a function from a path to the outcome of `fs.stat` on it.
* A promise is represented by the way it settles (`Settled`): fulfilled with a value or
  rejected with a reason.
* `Promise.map` runs the per-candidate queries concurrently and rejects with the rejection
  that happens first.  The order in which the queries complete is therefore an explicit
  argument (`order`, a list of candidate indices; candidates it does not mention complete
  afterwards, in input order).  Every theorem quantifies over all such orders.
* Every call of `fs.statAsync` is recorded in the `queried` component of a `Run`.
* JavaScript numbers occurring as `options.sort` are integers here; the only operation the
  source applies to them is strict equality with `1` and `2`.
-/

namespace FsCapture

/-! ## Data model -/

/-- Kinds of node a `fs.Stats` record can describe. -/
inductive NodeKind where
  | regular
  | directory
  | symlink
  | socket
  | blockDevice
  | charDevice
  | fifo
  deriving DecidableEq, Repr

/-- The platform metadata record (`fs.Stats`), reduced to the node kind and two payload
fields that let two records of the same kind differ. -/
structure Stats where
  kind : NodeKind
  size : Nat
  mtimeMs : Nat
  deriving DecidableEq, Repr

/-- Method `stat.isFile()`. -/
def Stats.isFile (s : Stats) : Bool :=
  s.kind == NodeKind.regular

/-- Method `stat.isDirectory()`. -/
def Stats.isDirectory (s : Stats) : Bool :=
  s.kind == NodeKind.directory

/-- An error object as produced by `fs.stat`: its `code` property and its message. -/
structure JsError where
  code : String
  message : String
  deriving DecidableEq, Repr

/-- Outcome of one `fs.stat` call. -/
inductive StatResult where
  | ok (stat : Stats)
  | fail (err : JsError)
  deriving DecidableEq, Repr

/-- The filesystem, as seen through `fs.stat`. -/
abbrev FileSystem := String → StatResult

/-- The object literal built in `Processor`: `{ path, stats, type }`. -/
structure CaptureEntry where
  path : String
  stats : Stats
  type : Nat
  deriving DecidableEq, Repr

/-- How a promise settles. -/
inductive Settled (α : Type) where
  | fulfilled (value : α)
  | rejected (reason : JsError)
  deriving DecidableEq, Repr

/-- A settled promise together with the `fs.statAsync` calls issued to obtain it. -/
structure Run (α : Type) where
  queried : List String
  outcome : Settled α
  deriving DecidableEq, Repr

/-- The JavaScript values `options.sort` may hold. -/
inductive JsVal where
  | undefined
  | null
  | bool (b : Bool)
  | number (n : Int)
  | string (s : String)
  deriving DecidableEq, Repr

/-- The `options` object: each property may be absent. -/
structure Options where
  extension : Option String
  sort : Option JsVal
  deriving DecidableEq, Repr

/-- A node-style completion callback `cb(err, results)`: it either returns a value or
throws (`Except.error`). -/
abbrev Callback (ρ : Type) := Option JsError → Option (List CaptureEntry) → Except JsError ρ

/-- Second argument of `Handler`: an options object or, in the two-argument calling
convention, the callback itself. -/
inductive OptionsArg (ρ : Type) where
  | object (o : Options)
  | callback (f : Callback ρ)

/-- What the promise returned by `Handler` can be fulfilled with: the `results` array, an
error object (the value of `return err`), or whatever the callback returned. -/
inductive Value (ρ : Type) where
  | results (rs : List CaptureEntry)
  | error (err : JsError)
  | returned (v : ρ)
  deriving DecidableEq, Repr

/-! ## `CAP_ENGINE.Processor` -/

/-- Call `fs.statAsync(path)`: one metadata query, recorded. -/
def statAsync (fs : FileSystem) (path : String) : Run Stats :=
  match fs path with
  | StatResult.ok stat => { queried := [path], outcome := Settled.fulfilled stat }
  | StatResult.fail err => { queried := [path], outcome := Settled.rejected err }

/-- The mapper passed to `Promise.map`:
`fs.statAsync(path).then(stat => ({ path, stats: stat, type: stat.isFile() ? 1 : 2 }))
   .catch({ code: 'ENOENT' }, () => false)`.
The value `false` is `none`. -/
def probe (fs : FileSystem) (path : String) : Run (Option CaptureEntry) :=
  let r := statAsync fs path
  { queried := r.queried
    outcome :=
      match r.outcome with
      | Settled.fulfilled stat =>
          Settled.fulfilled
            (some { path := path, stats := stat, type := if stat.isFile then 1 else 2 })
      | Settled.rejected err =>
          if err.code = "ENOENT" then Settled.fulfilled none else Settled.rejected err }

/-- The rejection reason of the promise at index `i`, if that promise rejects. -/
def rejectionAt {β : Type} (outs : List (Settled β)) (i : Nat) : Option JsError :=
  match outs[i]? with
  | some (Settled.rejected e) => some e
  | _ => none

/-- The values of the fulfilled promises, in input order. -/
def fulfilledValues {β : Type} : List (Settled β) → List β
  | [] => []
  | Settled.fulfilled v :: rest => v :: fulfilledValues rest
  | Settled.rejected _ :: rest => fulfilledValues rest

/-- How `Promise.map` settles: it rejects with the rejection that happens first in
completion order, and otherwise is fulfilled with all values in input order. -/
def promiseMap {β : Type} (order : List Nat) (outs : List (Settled β)) : Settled (List β) :=
  match (order ++ List.range outs.length).findSome? (rejectionAt outs) with
  | some e => Settled.rejected e
  | none => Settled.fulfilled (fulfilledValues outs)

/-- The array kept by `.filter(stat => !(stat === false))`. -/
def dropFalse : List (Option CaptureEntry) → List CaptureEntry
  | [] => []
  | some entry :: rest => entry :: dropFalse rest
  | none :: rest => dropFalse rest

/-- Function `CAP_ENGINE.Processor(possibilities)`. -/
def Processor (fs : FileSystem) (order : List Nat) (possibilities : List String) :
    Run (List CaptureEntry) :=
  let runs := possibilities.map (probe fs)
  { queried := (runs.map (fun r => r.queried)).flatten
    outcome :=
      match promiseMap order (runs.map (fun r => r.outcome)) with
      | Settled.fulfilled values => Settled.fulfilled (dropFalse values)
      | Settled.rejected err => Settled.rejected err }

/-! ## `CAP_ENGINE.Handler` -/

/-- The `switch (options.sort)` block that fills `paths`. -/
def candidatePaths (path : String) (extension : String) (sort : JsVal) : List String :=
  if sort = JsVal.number 1 then
    [path ++ extension] ++ (if extension ≠ "" then [path] else [])
  else if sort = JsVal.number 2 then
    [path] ++ (if extension ≠ "" then [path ++ extension] else [])
  else
    []

/-- Result of `Object.assign({ extension: '', sort: 2 }, options)`, read back as the pair
`(options.extension, options.sort)`. -/
def assignDefaults (options : Options) : String × JsVal :=
  (options.extension.getD "", options.sort.getD (JsVal.number 2))

/-- The `.then(...).catch(...)` chain at the end of `Handler`. -/
def finish {ρ : Type} (cb : Option (Callback ρ)) (p : Settled (List CaptureEntry)) :
    Settled (Value ρ) :=
  let afterThen : Settled (Value ρ) :=
    match p with
    | Settled.fulfilled results =>
        match cb with
        | some f =>
            match f none (some results) with
            | Except.ok v => Settled.fulfilled (Value.returned v)
            | Except.error thrown => Settled.rejected thrown
        | none => Settled.fulfilled (Value.results results)
    | Settled.rejected err => Settled.rejected err
  match afterThen with
  | Settled.fulfilled v => Settled.fulfilled v
  | Settled.rejected err =>
      match cb with
      | some f =>
          match f (some err) none with
          | Except.ok v => Settled.fulfilled (Value.returned v)
          | Except.error thrown => Settled.rejected thrown
      | none => Settled.fulfilled (Value.error err)

/-- Function `CAP_ENGINE.Handler(path, options, cb)`, the exported function. -/
def Handler {ρ : Type} (fs : FileSystem) (order : List Nat) (path : String)
    (options : Option (OptionsArg ρ)) (cb : Option (Callback ρ)) : Run (Value ρ) :=
  let cb1 : Option (Callback ρ) :=
    match options with
    | some (OptionsArg.callback f) => some f
    | _ => cb
  let options1 : Options :=
    match options with
    | some (OptionsArg.object o) => o
    | _ => { extension := none, sort := none }
  let merged := assignDefaults options1
  let paths := candidatePaths path merged.1 merged.2
  let r := Processor fs order paths
  { queried := r.queried, outcome := finish cb1 r.outcome }

/-! ## Vocabulary of the statements -/

/-- The path exists: its metadata query succeeds. -/
def pathExists (fs : FileSystem) (path : String) : Bool :=
  match fs path with
  | StatResult.ok _ => true
  | StatResult.fail _ => false

/-- The per-candidate promises `Promise.map` joins for the given candidates. -/
def probeOutcomes (fs : FileSystem) (paths : List String) :
    List (Settled (Option CaptureEntry)) :=
  (paths.map (probe fs)).map (fun r => r.outcome)

/-! ## Concrete states used by the closed statements below -/

/-- A directory record. -/
def dirStats : Stats := { kind := NodeKind.directory, size := 4096, mtimeMs := 7 }

/-- A regular-file record. -/
def fileStats : Stats := { kind := NodeKind.regular, size := 12, mtimeMs := 9 }

/-- The not-found error. -/
def enoent : JsError := { code := "ENOENT", message := "no such file or directory" }

/-- A permission error. -/
def eacces : JsError := { code := "EACCES", message := "permission denied" }

/-- A filesystem holding a directory `a`, regular files `a.txt` and `b.md`, an unreadable
`locked`, and nothing else. -/
def demoFs : FileSystem := fun p =>
  if p = "a" then StatResult.ok dirStats
  else if p = "a.txt" then StatResult.ok fileStats
  else if p = "b.md" then StatResult.ok fileStats
  else if p = "locked" then StatResult.fail eacces
  else StatResult.fail enoent

/-! ## Auxiliary facts about the prober -/

theorem probe_queried (fs : FileSystem) (p : String) : (probe fs p).queried = [p] := by
  unfold probe statAsync
  cases fs p <;> rfl

theorem probe_outcome_ok {fs : FileSystem} {p : String} {s : Stats}
    (h : fs p = StatResult.ok s) :
    (probe fs p).outcome =
      Settled.fulfilled (some { path := p, stats := s, type := if s.isFile then 1 else 2 }) := by
  simp [probe, statAsync, h]

theorem probe_outcome_fail {fs : FileSystem} {p : String} {e : JsError}
    (h : fs p = StatResult.fail e) :
    (probe fs p).outcome =
      if e.code = "ENOENT" then Settled.fulfilled none else Settled.rejected e := by
  simp [probe, statAsync, h]

theorem Processor_queried (fs : FileSystem) (order : List Nat) (ps : List String) :
    (Processor fs order ps).queried = ps := by
  show ((ps.map (probe fs)).map (fun r => r.queried)).flatten = ps
  induction ps with
  | nil => rfl
  | cons p rest ih =>
      rw [List.map_cons, List.map_cons, List.flatten_cons, ih, probe_queried]
      rfl

theorem Processor_outcome (fs : FileSystem) (order : List Nat) (ps : List String) :
    (Processor fs order ps).outcome =
      match promiseMap order (probeOutcomes fs ps) with
      | Settled.fulfilled values => Settled.fulfilled (dropFalse values)
      | Settled.rejected err => Settled.rejected err := rfl

theorem rejectionAt_eq_some {β : Type} {outs : List (Settled β)} {i : Nat} {e : JsError} :
    rejectionAt outs i = some e ↔ outs[i]? = some (Settled.rejected e) := by
  unfold rejectionAt
  split
  · next e1 h => simp [h]
  · next h =>
      constructor
      · intro h1; cases h1
      · intro h1; exact absurd h1 (h e)

theorem promiseMap_rejected_mem {β : Type} {order : List Nat} {outs : List (Settled β)}
    {e : JsError} (h : promiseMap order outs = Settled.rejected e) :
    Settled.rejected e ∈ outs := by
  unfold promiseMap at h
  split at h
  · next e1 hfind =>
      cases h
      obtain ⟨i, _, hi⟩ := List.exists_of_findSome?_eq_some hfind
      exact List.getElem?_mem (rejectionAt_eq_some.mp hi)
  · cases h

theorem promiseMap_of_mem_rejected {β : Type} (order : List Nat) {outs : List (Settled β)}
    {e : JsError} (h : Settled.rejected e ∈ outs) :
    ∃ e1, promiseMap order outs = Settled.rejected e1 := by
  unfold promiseMap
  split
  · next e1 _ => exact ⟨e1, rfl⟩
  · next hfind =>
      exfalso
      rw [List.findSome?_eq_none_iff] at hfind
      obtain ⟨i, hlt, hi⟩ := List.mem_iff_getElem.mp h
      have hmem : i ∈ order ++ List.range outs.length :=
        List.mem_append_right _ (List.mem_range.mpr hlt)
      have h1 := hfind i hmem
      have h2 : rejectionAt outs i = some e :=
        rejectionAt_eq_some.mpr (by rw [List.getElem?_eq_getElem hlt, hi])
      rw [h2] at h1
      cases h1

theorem promiseMap_of_no_rejected {β : Type} (order : List Nat) {outs : List (Settled β)}
    (h : ∀ e, Settled.rejected e ∉ outs) :
    promiseMap order outs = Settled.fulfilled (fulfilledValues outs) := by
  unfold promiseMap
  split
  · next e1 hfind =>
      obtain ⟨i, _, hi⟩ := List.exists_of_findSome?_eq_some hfind
      exact absurd (List.getElem?_mem (rejectionAt_eq_some.mp hi)) (h e1)
  · rfl

theorem rejected_mem_probeOutcomes {fs : FileSystem} {ps : List String} {e : JsError} :
    Settled.rejected e ∈ probeOutcomes fs ps ↔
      ∃ p, p ∈ ps ∧ fs p = StatResult.fail e ∧ e.code ≠ "ENOENT" := by
  unfold probeOutcomes
  simp only [List.map_map, List.mem_map, Function.comp]
  constructor
  · rintro ⟨p, hp, hout⟩
    refine ⟨p, hp, ?_⟩
    cases hfs : fs p with
    | ok s => rw [probe_outcome_ok hfs] at hout; cases hout
    | fail e1 =>
        rw [probe_outcome_fail hfs] at hout
        by_cases hc : e1.code = "ENOENT"
        · rw [if_pos hc] at hout; cases hout
        · rw [if_neg hc] at hout; cases hout; exact ⟨rfl, hc⟩
  · rintro ⟨p, hp, hfs, hc⟩
    exact ⟨p, hp, by rw [probe_outcome_fail hfs, if_neg hc]⟩

theorem kept_paths (fs : FileSystem) (ps : List String) :
    (dropFalse (fulfilledValues (probeOutcomes fs ps))).map (fun r => r.path) =
      ps.filter (pathExists fs) := by
  induction ps with
  | nil => rfl
  | cons p rest ih =>
      have hcons : probeOutcomes fs (p :: rest) =
          (probe fs p).outcome :: probeOutcomes fs rest := rfl
      rw [hcons]
      cases hfs : fs p with
      | ok s =>
          have hex : pathExists fs p = true := by simp [pathExists, hfs]
          rw [probe_outcome_ok hfs, List.filter_cons_of_pos hex]
          simp only [fulfilledValues, dropFalse, List.map_cons, ih]
      | fail e =>
          have hex : ¬ pathExists fs p = true := by simp [pathExists, hfs]
          rw [probe_outcome_fail hfs, List.filter_cons_of_neg hex]
          by_cases hc : e.code = "ENOENT"
          · rw [if_pos hc]; simpa only [fulfilledValues, dropFalse] using ih
          · rw [if_neg hc]; simpa only [fulfilledValues] using ih

theorem kept_sound (fs : FileSystem) (ps : List String) (r : CaptureEntry)
    (h : r ∈ dropFalse (fulfilledValues (probeOutcomes fs ps))) :
    r.path ∈ ps ∧ fs r.path = StatResult.ok r.stats ∧
      r.type = if r.stats.isFile then 1 else 2 := by
  induction ps with
  | nil => cases h
  | cons p rest ih =>
      have hcons : probeOutcomes fs (p :: rest) =
          (probe fs p).outcome :: probeOutcomes fs rest := rfl
      rw [hcons] at h
      cases hfs : fs p with
      | ok s =>
          rw [probe_outcome_ok hfs] at h
          simp only [fulfilledValues, dropFalse, List.mem_cons] at h
          rcases h with h | h
          · subst h; exact ⟨List.mem_cons_self _ _, hfs, rfl⟩
          · obtain ⟨h1, h2⟩ := ih h; exact ⟨List.mem_cons_of_mem _ h1, h2⟩
      | fail e =>
          rw [probe_outcome_fail hfs] at h
          by_cases hc : e.code = "ENOENT"
          · rw [if_pos hc] at h
            simp only [fulfilledValues, dropFalse] at h
            obtain ⟨h1, h2⟩ := ih h; exact ⟨List.mem_cons_of_mem _ h1, h2⟩
          · rw [if_neg hc] at h
            simp only [fulfilledValues] at h
            obtain ⟨h1, h2⟩ := ih h; exact ⟨List.mem_cons_of_mem _ h1, h2⟩

theorem Processor_outcome_of_no_failure {fs : FileSystem} (order : List Nat)
    {ps : List String}
    (h : ∀ p, p ∈ ps → ∀ e, fs p = StatResult.fail e → e.code = "ENOENT") :
    (Processor fs order ps).outcome =
      Settled.fulfilled (dropFalse (fulfilledValues (probeOutcomes fs ps))) := by
  have hno : ∀ e, Settled.rejected e ∉ probeOutcomes fs ps := by
    intro e hmem
    obtain ⟨p, hp, hfs, hc⟩ := rejected_mem_probeOutcomes.mp hmem
    exact hc (h p hp e hfs)
  rw [Processor_outcome, promiseMap_of_no_rejected order hno]

theorem Processor_rejected_iff (fs : FileSystem) (order : List Nat) (ps : List String) :
    (∃ e, (Processor fs order ps).outcome = Settled.rejected e) ↔
      ∃ p, p ∈ ps ∧ ∃ e, fs p = StatResult.fail e ∧ e.code ≠ "ENOENT" := by
  constructor
  · rintro ⟨e, he⟩
    rw [Processor_outcome] at he
    split at he
    · cases he
    · next err hmap =>
        obtain ⟨p, hp, hfs, hc⟩ :=
          rejected_mem_probeOutcomes.mp (promiseMap_rejected_mem hmap)
        exact ⟨p, hp, err, hfs, hc⟩
  · rintro ⟨p, hp, e, hfs, hc⟩
    obtain ⟨e1, he1⟩ :=
      promiseMap_of_mem_rejected order (rejected_mem_probeOutcomes.mpr ⟨p, hp, hfs, hc⟩)
    exact ⟨e1, by rw [Processor_outcome, he1]⟩

theorem Processor_rejected_origin {fs : FileSystem} {order : List Nat} {ps : List String}
    {e : JsError} (h : (Processor fs order ps).outcome = Settled.rejected e) :
    ∃ p, p ∈ ps ∧ fs p = StatResult.fail e ∧ e.code ≠ "ENOENT" := by
  rw [Processor_outcome] at h
  split at h
  · cases h
  · next err hmap =>
      cases h
      exact rejected_mem_probeOutcomes.mp (promiseMap_rejected_mem hmap)

theorem Handler_object_outcome {ρ : Type} (fs : FileSystem) (order : List Nat)
    (path : String) (o : Options) (cb : Option (Callback ρ)) :
    (Handler fs order path (some (OptionsArg.object o)) cb).outcome =
      finish cb (Processor fs order
        (candidatePaths path (assignDefaults o).1 (assignDefaults o).2)).outcome := rfl

theorem Handler_omitted_outcome {ρ : Type} (fs : FileSystem) (order : List Nat)
    (path : String) (cb : Option (Callback ρ)) :
    (Handler fs order path none cb).outcome =
      finish cb (Processor fs order (candidatePaths path "" (JsVal.number 2))).outcome := rfl

theorem candidatePaths_base_first (p e : String) (he : e ≠ "") :
    candidatePaths p e (JsVal.number 2) = [p, p ++ e] := by
  simp [candidatePaths, he]

theorem candidatePaths_extension_first (p e : String) (he : e ≠ "") :
    candidatePaths p e (JsVal.number 1) = [p ++ e, p] := by
  simp [candidatePaths, he]

theorem candidatePaths_no_extension (p : String) :
    candidatePaths p "" (JsVal.number 1) = [p] ∧
      candidatePaths p "" (JsVal.number 2) = [p] := by
  simp [candidatePaths]

theorem finish_none_fulfilled {ρ : Type} (rs : List CaptureEntry) :
    finish (none : Option (Callback ρ)) (Settled.fulfilled rs) =
      Settled.fulfilled (Value.results rs) := rfl

theorem finish_none_rejected {ρ : Type} (e : JsError) :
    finish (none : Option (Callback ρ)) (Settled.rejected e) =
      Settled.fulfilled (Value.error e) := rfl

theorem promiseMap_fulfilled_eq {β : Type} {order : List Nat} {outs : List (Settled β)}
    {vs : List β} (h : promiseMap order outs = Settled.fulfilled vs) :
    vs = fulfilledValues outs := by
  unfold promiseMap at h
  split at h
  · cases h
  · cases h; rfl

theorem Processor_fulfilled_eq {fs : FileSystem} {order : List Nat} {ps : List String}
    {rs : List CaptureEntry} (h : (Processor fs order ps).outcome = Settled.fulfilled rs) :
    rs = dropFalse (fulfilledValues (probeOutcomes fs ps)) := by
  rw [Processor_outcome] at h
  split at h
  · next values hmap =>
      cases h
      rw [promiseMap_fulfilled_eq hmap]
  · cases h

theorem Run_eq {α : Type} {r : Run α} {q : List String} {o : Settled α}
    (hq : r.queried = q) (ho : r.outcome = o) : r = { queried := q, outcome := o } := by
  cases r
  cases hq
  cases ho
  rfl

theorem Handler_default_eq {ρ : Type} (fs : FileSystem) (order : List Nat) (p : String)
    (opts : Option (OptionsArg ρ))
    (hopts : opts = none ∨
      opts = some (OptionsArg.object { extension := none, sort := none })) :
    Handler fs order p opts (none : Option (Callback ρ)) =
      { queried := [p]
        outcome := finish (none : Option (Callback ρ)) (Processor fs order [p]).outcome } := by
  have hpaths : candidatePaths p "" (JsVal.number 2) = [p] :=
    (candidatePaths_no_extension p).2
  rcases hopts with h | h <;> subst h
  · apply Run_eq
    · show (Processor fs order (candidatePaths p "" (JsVal.number 2))).queried = _
      rw [Processor_queried, hpaths]
    · rw [Handler_omitted_outcome, hpaths]
  · apply Run_eq
    · show (Processor fs order (candidatePaths p "" (JsVal.number 2))).queried = _
      rw [Processor_queried, hpaths]
    · rw [Handler_object_outcome]
      show finish none (Processor fs order (candidatePaths p "" (JsVal.number 2))).outcome = _
      rw [hpaths]

/-! ## The claims -/

/-- C1: when `p` and `p ++ e` both exist (`e` non-empty) and `sort` is omitted or `2`,
`Handler p { extension: e }` without callback queries `p` then `p ++ e` and is fulfilled
with exactly two entries: the entry for `p`, then the entry for `p ++ e`. -/
theorem capture_base_first (ρ : Type) (fs : FileSystem) (order : List Nat) (p e : String)
    (s1 s2 : Stats) (sort : Option JsVal) (he : e ≠ "")
    (hp : fs p = StatResult.ok s1) (hpe : fs (p ++ e) = StatResult.ok s2)
    (hs : sort = none ∨ sort = some (JsVal.number 2)) :
    Handler fs order p (some (OptionsArg.object { extension := some e, sort := sort }))
        (none : Option (Callback ρ)) =
      { queried := [p, p ++ e]
        outcome := Settled.fulfilled (Value.results
          [ { path := p, stats := s1, type := if s1.isFile then 1 else 2 },
            { path := p ++ e, stats := s2, type := if s2.isFile then 1 else 2 } ]) } := by
  have hpaths : candidatePaths p
      (assignDefaults { extension := some e, sort := sort }).1
      (assignDefaults { extension := some e, sort := sort }).2 = [p, p ++ e] := by
    rcases hs with hs | hs <;> subst hs <;> exact candidatePaths_base_first p e he
  have hok : ∀ q, q ∈ [p, p ++ e] → ∀ err, fs q = StatResult.fail err →
      err.code = "ENOENT" := by
    intro q hq err herr
    simp only [List.mem_cons, List.mem_singleton, List.not_mem_nil, or_false] at hq
    rcases hq with hq | hq <;> subst hq
    · rw [hp] at herr; cases herr
    · rw [hpe] at herr; cases herr
  have hq : (Handler fs order p
      (some (OptionsArg.object { extension := some e, sort := sort }))
      (none : Option (Callback ρ))).queried = [p, p ++ e] := by
    show (Processor fs order _).queried = _
    rw [Processor_queried, hpaths]
  have ho : (Handler fs order p
      (some (OptionsArg.object { extension := some e, sort := sort }))
      (none : Option (Callback ρ))).outcome = Settled.fulfilled (Value.results
          [ { path := p, stats := s1, type := if s1.isFile then 1 else 2 },
            { path := p ++ e, stats := s2, type := if s2.isFile then 1 else 2 } ]) := by
    rw [Handler_object_outcome, hpaths, Processor_outcome_of_no_failure order hok]
    simp only [probeOutcomes, List.map_cons, List.map_nil, probe_outcome_ok hp,
      probe_outcome_ok hpe, fulfilledValues, dropFalse]
    rfl
  cases hH : Handler fs order p
      (some (OptionsArg.object { extension := some e, sort := sort }))
      (none : Option (Callback ρ)) with
  | mk q o =>
      rw [hH] at hq ho
      cases hq
      cases ho
      rfl

/-- C2: when `p` and `p ++ e` both exist (`e` non-empty), `Handler p { extension: e,
sort: 1 }` without callback queries `p ++ e` then `p` and is fulfilled with exactly two
entries: the entry for `p ++ e`, then the entry for `p`. -/
theorem capture_extension_first (ρ : Type) (fs : FileSystem) (order : List Nat)
    (p e : String) (s1 s2 : Stats) (he : e ≠ "")
    (hp : fs p = StatResult.ok s1) (hpe : fs (p ++ e) = StatResult.ok s2) :
    Handler fs order p
        (some (OptionsArg.object { extension := some e, sort := some (JsVal.number 1) }))
        (none : Option (Callback ρ)) =
      { queried := [p ++ e, p]
        outcome := Settled.fulfilled (Value.results
          [ { path := p ++ e, stats := s2, type := if s2.isFile then 1 else 2 },
            { path := p, stats := s1, type := if s1.isFile then 1 else 2 } ]) } := by
  have hpaths : candidatePaths p
      (assignDefaults { extension := some e, sort := some (JsVal.number 1) }).1
      (assignDefaults { extension := some e, sort := some (JsVal.number 1) }).2 =
        [p ++ e, p] := candidatePaths_extension_first p e he
  have hok : ∀ q, q ∈ [p ++ e, p] → ∀ err, fs q = StatResult.fail err →
      err.code = "ENOENT" := by
    intro q hq err herr
    simp only [List.mem_cons, List.mem_singleton, List.not_mem_nil, or_false] at hq
    rcases hq with hq | hq <;> subst hq
    · rw [hpe] at herr; cases herr
    · rw [hp] at herr; cases herr
  have hq : (Handler fs order p
      (some (OptionsArg.object { extension := some e, sort := some (JsVal.number 1) }))
      (none : Option (Callback ρ))).queried = [p ++ e, p] := by
    show (Processor fs order _).queried = _
    rw [Processor_queried, hpaths]
  have ho : (Handler fs order p
      (some (OptionsArg.object { extension := some e, sort := some (JsVal.number 1) }))
      (none : Option (Callback ρ))).outcome = Settled.fulfilled (Value.results
          [ { path := p ++ e, stats := s2, type := if s2.isFile then 1 else 2 },
            { path := p, stats := s1, type := if s1.isFile then 1 else 2 } ]) := by
    rw [Handler_object_outcome, hpaths, Processor_outcome_of_no_failure order hok]
    simp only [probeOutcomes, List.map_cons, List.map_nil, probe_outcome_ok hp,
      probe_outcome_ok hpe, fulfilledValues, dropFalse]
    rfl
  cases hH : Handler fs order p
      (some (OptionsArg.object { extension := some e, sort := some (JsVal.number 1) }))
      (none : Option (Callback ρ)) with
  | mk q o =>
      rw [hH] at hq ho
      cases hq
      cases ho
      rfl

/-- Witness for C1 on `demoFs`: `Handler "a" { extension: ".txt" }`. -/
theorem capture_base_first_witness :
    (".txt" ≠ "" ∧ demoFs "a" = StatResult.ok dirStats ∧
      demoFs ("a" ++ ".txt") = StatResult.ok fileStats) ∧
    Handler demoFs [1, 0] "a"
        (some (OptionsArg.object { extension := some ".txt", sort := none }))
        (none : Option (Callback Unit)) =
      { queried := ["a", "a" ++ ".txt"]
        outcome := Settled.fulfilled (Value.results
          [ { path := "a", stats := dirStats, type := if dirStats.isFile then 1 else 2 },
            { path := "a" ++ ".txt", stats := fileStats,
              type := if fileStats.isFile then 1 else 2 } ]) } :=
  ⟨⟨by decide, by decide, by decide⟩,
    capture_base_first Unit demoFs [1, 0] "a" ".txt" dirStats fileStats none
      (by decide) (by decide) (by decide) (Or.inl rfl)⟩

/-- Witness for C2 on `demoFs`: `Handler "a" { extension: ".txt", sort: 1 }`. -/
theorem capture_extension_first_witness :
    (".txt" ≠ "" ∧ demoFs "a" = StatResult.ok dirStats ∧
      demoFs ("a" ++ ".txt") = StatResult.ok fileStats) ∧
    Handler demoFs [1, 0] "a"
        (some (OptionsArg.object
          { extension := some ".txt", sort := some (JsVal.number 1) }))
        (none : Option (Callback Unit)) =
      { queried := ["a" ++ ".txt", "a"]
        outcome := Settled.fulfilled (Value.results
          [ { path := "a" ++ ".txt", stats := fileStats,
              type := if fileStats.isFile then 1 else 2 },
            { path := "a", stats := dirStats,
              type := if dirStats.isFile then 1 else 2 } ]) } :=
  ⟨⟨by decide, by decide, by decide⟩,
    capture_extension_first Unit demoFs [1, 0] "a" ".txt" dirStats fileStats
      (by decide) (by decide) (by decide)⟩

/-- C3: for an existing path `p`, `Handler p` with default options and no callback issues
the single query `p` and is fulfilled with exactly one entry, whose path is `p`, whose
stats is the record returned for `p`, and whose type is `1` for a regular file and `2`
for a directory. -/
theorem capture_default_single (ρ : Type) (fs : FileSystem) (order : List Nat)
    (p : String) (s : Stats) (opts : Option (OptionsArg ρ))
    (hopts : opts = none ∨
      opts = some (OptionsArg.object { extension := none, sort := none }))
    (hp : fs p = StatResult.ok s) :
    Handler fs order p opts (none : Option (Callback ρ)) =
      { queried := [p]
        outcome := Settled.fulfilled (Value.results
          [ { path := p, stats := s, type := if s.isFile then 1 else 2 } ]) } ∧
    (s.kind = NodeKind.regular → (if s.isFile then 1 else 2) = 1) ∧
    (s.kind = NodeKind.directory → (if s.isFile then 1 else 2) = 2) := by
  refine ⟨?_, ?_, ?_⟩
  · have hok : ∀ q, q ∈ [p] → ∀ err, fs q = StatResult.fail err →
        err.code = "ENOENT" := by
      intro q hq err herr
      simp only [List.mem_singleton] at hq
      subst hq
      rw [hp] at herr; cases herr
    rw [Handler_default_eq fs order p opts hopts,
      Processor_outcome_of_no_failure order hok]
    simp only [probeOutcomes, List.map_cons, List.map_nil, probe_outcome_ok hp,
      fulfilledValues, dropFalse]
    rfl
  · intro hk; simp [Stats.isFile, hk]
  · intro hk; simp [Stats.isFile, hk]

/-- Witness for C3 on `demoFs`: `Handler "a.txt"`, a regular file. -/
theorem capture_default_single_witness :
    demoFs "a.txt" = StatResult.ok fileStats ∧
    (Handler demoFs [] "a.txt" none (none : Option (Callback Unit)) =
      { queried := ["a.txt"]
        outcome := Settled.fulfilled (Value.results
          [ { path := "a.txt", stats := fileStats,
              type := if fileStats.isFile then 1 else 2 } ]) } ∧
    (fileStats.kind = NodeKind.regular → (if fileStats.isFile then 1 else 2) = 1) ∧
    (fileStats.kind = NodeKind.directory → (if fileStats.isFile then 1 else 2) = 2)) :=
  ⟨by decide,
    capture_default_single Unit demoFs [] "a.txt" fileStats none (Or.inl rfl) (by decide)⟩

/-- C4: for a path `p` whose metadata query reports `ENOENT`, `Handler p` with default
options and no callback is fulfilled with the empty `results` array; the outcome is
neither a rejection nor an error value. -/
theorem capture_missing_empty (ρ : Type) (fs : FileSystem) (order : List Nat)
    (p : String) (e : JsError) (opts : Option (OptionsArg ρ))
    (hopts : opts = none ∨
      opts = some (OptionsArg.object { extension := none, sort := none }))
    (hp : fs p = StatResult.fail e) (hcode : e.code = "ENOENT") :
    Handler fs order p opts (none : Option (Callback ρ)) =
      { queried := [p], outcome := Settled.fulfilled (Value.results []) } := by
  have hok : ∀ q, q ∈ [p] → ∀ err, fs q = StatResult.fail err →
      err.code = "ENOENT" := by
    intro q hq err herr
    simp only [List.mem_singleton] at hq
    subst hq
    rw [hp] at herr; cases herr; exact hcode
  rw [Handler_default_eq fs order p opts hopts,
    Processor_outcome_of_no_failure order hok]
  simp only [probeOutcomes, List.map_cons, List.map_nil, probe_outcome_fail hp,
    if_pos hcode, fulfilledValues, dropFalse]
  rfl

/-- Witness for C4 on `demoFs`: `Handler "ghost"`, a path that does not exist. -/
theorem capture_missing_empty_witness :
    (demoFs "ghost" = StatResult.fail enoent ∧ enoent.code = "ENOENT") ∧
    Handler demoFs [] "ghost" none (none : Option (Callback Unit)) =
      { queried := ["ghost"], outcome := Settled.fulfilled (Value.results []) } :=
  ⟨⟨by decide, by decide⟩,
    capture_missing_empty Unit demoFs [] "ghost" enoent none (Or.inl rfl)
      (by decide) (by decide)⟩

/-- C5: `Processor` is rejected if and only if some candidate's metadata query fails with
an error whose code is not `ENOENT`; the rejection reason is then the unchanged error of
such a candidate; and in that case the outcome is not a fulfilment with any list of
entries, whatever the other candidates are. -/
theorem Processor_all_or_nothing (fs : FileSystem) (order : List Nat) (ps : List String) :
    ((∃ e, (Processor fs order ps).outcome = Settled.rejected e) ↔
      ∃ p, p ∈ ps ∧ ∃ e, fs p = StatResult.fail e ∧ e.code ≠ "ENOENT") ∧
    (∀ e, (Processor fs order ps).outcome = Settled.rejected e →
      ∃ p, p ∈ ps ∧ fs p = StatResult.fail e ∧ e.code ≠ "ENOENT") ∧
    ((∃ p, p ∈ ps ∧ ∃ e, fs p = StatResult.fail e ∧ e.code ≠ "ENOENT") →
      ∀ rs, (Processor fs order ps).outcome ≠ Settled.fulfilled rs) := by
  refine ⟨Processor_rejected_iff fs order ps, fun e h => Processor_rejected_origin h, ?_⟩
  intro hbad rs hrs
  obtain ⟨e, he⟩ := (Processor_rejected_iff fs order ps).mpr hbad
  rw [he] at hrs
  cases hrs

/-- Witness for C5 on `demoFs`: the batch `a`, `locked`, `a.txt` yields no entries, although
two of its candidates exist. -/
theorem Processor_all_or_nothing_witness :
    ∀ rs, (Processor demoFs [2, 0, 1] ["a", "locked", "a.txt"]).outcome ≠
      Settled.fulfilled rs :=
  (Processor_all_or_nothing demoFs [2, 0, 1] ["a", "locked", "a.txt"]).2.2
    ⟨"locked", by decide, eacces, by decide, by decide⟩

/-- C6 fails on the code: without callback, a query failing with `EACCES` makes `Handler`
return a promise that is fulfilled with the error object as its value, not rejected. -/
theorem Handler_error_becomes_value :
    Handler demoFs [] "locked" none (none : Option (Callback Unit)) =
      { queried := ["locked"], outcome := Settled.fulfilled (Value.error eacces) } := by
  decide

/-- Companion to C6, for every input: without callback the promise returned by `Handler`
is never rejected, and a rejection of `Processor` with `e` comes out as the fulfilment
value `e`; with a callback the same rejection is delivered as `cb(e, null)`. -/
theorem Handler_rejection_paths (ρ : Type) (fs : FileSystem) (order : List Nat)
    (p : String) (o : Options) :
    (∀ e, (Handler fs order p (some (OptionsArg.object o))
        (none : Option (Callback ρ))).outcome ≠ Settled.rejected e) ∧
    (∀ e, (Processor fs order
        (candidatePaths p (assignDefaults o).1 (assignDefaults o).2)).outcome =
          Settled.rejected e →
      (Handler fs order p (some (OptionsArg.object o))
        (none : Option (Callback ρ))).outcome = Settled.fulfilled (Value.error e) ∧
      ∀ f : Callback ρ,
        (Handler fs order p (some (OptionsArg.object o)) (some f)).outcome =
          match f (some e) none with
          | Except.ok v => Settled.fulfilled (Value.returned v)
          | Except.error thrown => Settled.rejected thrown) := by
  refine ⟨?_, ?_⟩
  · intro e h
    rw [Handler_object_outcome] at h
    cases hP : (Processor fs order
        (candidatePaths p (assignDefaults o).1 (assignDefaults o).2)).outcome with
    | fulfilled rs => rw [hP, finish_none_fulfilled] at h; cases h
    | rejected err => rw [hP, finish_none_rejected] at h; cases h
  · intro e hP
    refine ⟨?_, ?_⟩
    · rw [Handler_object_outcome, hP, finish_none_rejected]
    · intro f
      rw [Handler_object_outcome, hP]
      rfl

/-- C7: when no candidate fails with an error other than `ENOENT`, `Processor` is
fulfilled and the paths of its entries are the input list filtered to the candidates that
exist, in input order.  In particular, when `p` is absent and `p ++ e` exists (`e`
non-empty), `Handler p { extension: e }` yields the single entry for `p ++ e` whether
`sort` is omitted, `1` or `2`. -/
theorem Processor_keeps_existing (ρ : Type) (fs : FileSystem) (order : List Nat) :
    (∀ ps : List String,
      (∀ p, p ∈ ps → ∀ e, fs p = StatResult.fail e → e.code = "ENOENT") →
      ∃ rs, (Processor fs order ps).outcome = Settled.fulfilled rs ∧
        rs.map (fun r => r.path) = ps.filter (pathExists fs)) ∧
    (∀ (p e : String) (s : Stats) (err : JsError) (sort : Option JsVal),
      e ≠ "" → fs p = StatResult.fail err → err.code = "ENOENT" →
      fs (p ++ e) = StatResult.ok s →
      (sort = none ∨ sort = some (JsVal.number 1) ∨ sort = some (JsVal.number 2)) →
      (Handler fs order p (some (OptionsArg.object { extension := some e, sort := sort }))
          (none : Option (Callback ρ))).outcome =
        Settled.fulfilled (Value.results
          [ { path := p ++ e, stats := s, type := if s.isFile then 1 else 2 } ])) := by
  refine ⟨?_, ?_⟩
  · intro ps h
    exact ⟨_, Processor_outcome_of_no_failure order h, kept_paths fs ps⟩
  · intro p e s err sort he hp hcode hpe hs
    have hok : ∀ l : List String, (∀ q, q ∈ l → q = p ∨ q = p ++ e) →
        ∀ q, q ∈ l → ∀ err1, fs q = StatResult.fail err1 → err1.code = "ENOENT" := by
      intro l hl q hq err1 herr
      rcases hl q hq with h | h <;> subst h
      · rw [hp] at herr; cases herr; exact hcode
      · rw [hpe] at herr; cases herr
    rw [Handler_object_outcome]
    rcases hs with hs | hs | hs <;> subst hs
    · show finish none (Processor fs order (candidatePaths p e (JsVal.number 2))).outcome = _
      rw [candidatePaths_base_first p e he,
        Processor_outcome_of_no_failure order (hok _ (by simp))]
      simp only [probeOutcomes, List.map_cons, List.map_nil, probe_outcome_fail hp,
        probe_outcome_ok hpe, if_pos hcode, fulfilledValues, dropFalse]
      rfl
    · show finish none (Processor fs order (candidatePaths p e (JsVal.number 1))).outcome = _
      rw [candidatePaths_extension_first p e he,
        Processor_outcome_of_no_failure order (hok _ (by simp))]
      simp only [probeOutcomes, List.map_cons, List.map_nil, probe_outcome_fail hp,
        probe_outcome_ok hpe, if_pos hcode, fulfilledValues, dropFalse]
      rfl
    · show finish none (Processor fs order (candidatePaths p e (JsVal.number 2))).outcome = _
      rw [candidatePaths_base_first p e he,
        Processor_outcome_of_no_failure order (hok _ (by simp))]
      simp only [probeOutcomes, List.map_cons, List.map_nil, probe_outcome_fail hp,
        probe_outcome_ok hpe, if_pos hcode, fulfilledValues, dropFalse]
      rfl

/-- Witness for C7 on `demoFs`: the batch `a`, `ghost`, `a.txt`, `a` keeps `a`, `a.txt`,
`a`; and `Handler "b" { extension: ".md", sort: 1 }` yields the entry for `b.md` alone. -/
theorem Processor_keeps_existing_witness :
    (∃ rs, (Processor demoFs [3, 1] ["a", "ghost", "a.txt", "a"]).outcome =
        Settled.fulfilled rs ∧
      rs.map (fun r => r.path) = ["a", "ghost", "a.txt", "a"].filter (pathExists demoFs)) ∧
    (Handler demoFs [3, 1] "b"
        (some (OptionsArg.object
          { extension := some ".md", sort := some (JsVal.number 1) }))
        (none : Option (Callback Unit))).outcome =
      Settled.fulfilled (Value.results
        [ { path := "b" ++ ".md", stats := fileStats,
            type := if fileStats.isFile then 1 else 2 } ]) :=
  ⟨(Processor_keeps_existing Unit demoFs [3, 1]).1 ["a", "ghost", "a.txt", "a"]
      (by
        intro p hp e he
        simp only [List.mem_cons, List.mem_singleton, List.not_mem_nil, or_false] at hp
        have h1 : demoFs "a" = StatResult.ok dirStats := by decide
        have h2 : demoFs "ghost" = StatResult.fail enoent := by decide
        have h3 : demoFs "a.txt" = StatResult.ok fileStats := by decide
        rcases hp with hp | hp | hp | hp <;> subst hp
        · rw [h1] at he; cases he
        · rw [h2] at he; cases he; rfl
        · rw [h3] at he; cases he
        · rw [h1] at he; cases he),
    (Processor_keeps_existing Unit demoFs [3, 1]).2 "b" ".md" fileStats enoent
      (some (JsVal.number 1)) (by decide) (by decide) (by decide) (by decide)
      (Or.inr (Or.inl rfl))⟩

/-- C8: with an empty extension (omitted or `""`) the candidate list is `[p]` under
`sort: 1` and under `sort: 2`, and `Handler` behaves identically under the two sort values
for every filesystem, completion order and callback. -/
theorem empty_extension_modes_coincide (ρ : Type) (p : String) (ext : Option String)
    (hext : ext = none ∨ ext = some "") :
    candidatePaths p (assignDefaults { extension := ext, sort := some (JsVal.number 1) }).1
        (assignDefaults { extension := ext, sort := some (JsVal.number 1) }).2 = [p] ∧
    candidatePaths p (assignDefaults { extension := ext, sort := some (JsVal.number 2) }).1
        (assignDefaults { extension := ext, sort := some (JsVal.number 2) }).2 = [p] ∧
    ∀ (fs : FileSystem) (order : List Nat) (cb : Option (Callback ρ)),
      Handler fs order p
          (some (OptionsArg.object { extension := ext, sort := some (JsVal.number 1) })) cb =
        Handler fs order p
          (some (OptionsArg.object { extension := ext, sort := some (JsVal.number 2) })) cb := by
  have h1 : candidatePaths p
      (assignDefaults { extension := ext, sort := some (JsVal.number 1) }).1
      (assignDefaults { extension := ext, sort := some (JsVal.number 1) }).2 = [p] := by
    rcases hext with h | h <;> subst h <;> exact (candidatePaths_no_extension p).1
  have h2 : candidatePaths p
      (assignDefaults { extension := ext, sort := some (JsVal.number 2) }).1
      (assignDefaults { extension := ext, sort := some (JsVal.number 2) }).2 = [p] := by
    rcases hext with h | h <;> subst h <;> exact (candidatePaths_no_extension p).2
  refine ⟨h1, h2, ?_⟩
  intro fs order cb
  show ({ queried := (Processor fs order _).queried,
          outcome := finish cb (Processor fs order _).outcome } : Run (Value ρ)) =
       { queried := (Processor fs order _).queried,
         outcome := finish cb (Processor fs order _).outcome }
  rw [h1, h2]

/-- Witness for C8: extension `""` on path `a`, evaluated on `demoFs`. -/
theorem empty_extension_modes_coincide_witness :
    candidatePaths "a"
        (assignDefaults { extension := some "", sort := some (JsVal.number 1) }).1
        (assignDefaults { extension := some "", sort := some (JsVal.number 1) }).2 = ["a"] ∧
    Handler demoFs [] "a"
        (some (OptionsArg.object { extension := some "", sort := some (JsVal.number 1) }))
        (none : Option (Callback Unit)) =
      Handler demoFs [] "a"
        (some (OptionsArg.object { extension := some "", sort := some (JsVal.number 2) }))
        (none : Option (Callback Unit)) :=
  ⟨(empty_extension_modes_coincide Unit "a" (some "") (Or.inr rfl)).1,
    (empty_extension_modes_coincide Unit "a" (some "") (Or.inr rfl)).2.2 demoFs [] none⟩

/-- C9: for a `sort` value other than `1` and `2` the candidate list is empty for every
path and extension, `Handler` issues no metadata query, and without callback it is
fulfilled with the empty `results` array whatever the filesystem holds. -/
theorem unknown_sort_yields_nothing (ρ : Type) (fs : FileSystem) (order : List Nat)
    (p : String) (ext : Option String) (sort : JsVal)
    (h1 : sort ≠ JsVal.number 1) (h2 : sort ≠ JsVal.number 2) :
    (∀ e : String, candidatePaths p e sort = []) ∧
    Handler fs order p (some (OptionsArg.object { extension := ext, sort := some sort }))
        (none : Option (Callback ρ)) =
      { queried := [], outcome := Settled.fulfilled (Value.results []) } := by
  have hpaths : ∀ e : String, candidatePaths p e sort = [] := by
    intro e
    unfold candidatePaths
    rw [if_neg h1, if_neg h2]
  refine ⟨hpaths, ?_⟩
  have hc : candidatePaths p
      (assignDefaults { extension := ext, sort := some sort }).1
      (assignDefaults { extension := ext, sort := some sort }).2 = [] := hpaths _
  apply Run_eq
  · show (Processor fs order _).queried = _
    rw [Processor_queried, hc]
  · rw [Handler_object_outcome, hc,
      Processor_outcome_of_no_failure order (by intro q hq; cases hq)]
    rfl

/-- Witness for C9 on `demoFs`: `Handler "a" { extension: ".txt", sort: "1" }` (the string
`"1"`, not the number) finds nothing although `a` and `a.txt` exist. -/
theorem unknown_sort_yields_nothing_witness :
    (JsVal.string "1" ≠ JsVal.number 1 ∧ JsVal.string "1" ≠ JsVal.number 2) ∧
    (∀ e : String, candidatePaths "a" e (JsVal.string "1") = []) ∧
    Handler demoFs [] "a"
        (some (OptionsArg.object
          { extension := some ".txt", sort := some (JsVal.string "1") }))
        (none : Option (Callback Unit)) =
      { queried := [], outcome := Settled.fulfilled (Value.results []) } :=
  ⟨⟨by decide, by decide⟩,
    unknown_sort_yields_nothing Unit demoFs [] "a" (some ".txt") (JsVal.string "1")
      (by decide) (by decide)⟩

/-- C10: every entry `Processor` returns carries the metadata record of its path, has type
`1` exactly when that record reports a regular file and type `2` exactly when it does
not (directory, symlink, socket, device, fifo), so its type is `1` or `2`. -/
theorem Processor_entry_type (fs : FileSystem) (order : List Nat) (ps : List String)
    (rs : List CaptureEntry) (h : (Processor fs order ps).outcome = Settled.fulfilled rs)
    (r : CaptureEntry) (hr : r ∈ rs) :
    fs r.path = StatResult.ok r.stats ∧
    (r.type = 1 ↔ r.stats.isFile = true) ∧
    (r.stats.isFile = true ↔ r.stats.kind = NodeKind.regular) ∧
    (r.type = 2 ↔ r.stats.kind ≠ NodeKind.regular) ∧
    (r.type = 1 ∨ r.type = 2) := by
  rw [Processor_fulfilled_eq h] at hr
  obtain ⟨_, hfs, hty⟩ := kept_sound fs ps r hr
  have hk : r.stats.isFile = true ↔ r.stats.kind = NodeKind.regular := by
    simp [Stats.isFile]
  refine ⟨hfs, ?_, hk, ?_, ?_⟩
  · rw [hty]
    by_cases hf : r.stats.isFile = true
    · simp [hf]
    · simp [hf]
  · rw [hty]
    constructor
    · intro h2 hreg
      rw [if_pos (hk.mpr hreg)] at h2
      exact absurd h2 (by decide)
    · intro hne
      rw [if_neg (fun hf => hne (hk.mp hf))]
  · rw [hty]
    by_cases hf : r.stats.isFile = true
    · simp [hf]
    · simp [hf]

/-- Witness for C10 on `demoFs`: the entry for the directory `a` in the batch `a`,
`a.txt`. -/
theorem Processor_entry_type_witness :
    (Processor demoFs [] ["a", "a.txt"]).outcome =
        Settled.fulfilled
          [ { path := "a", stats := dirStats, type := 2 },
            { path := "a.txt", stats := fileStats, type := 1 } ] ∧
    ((2 : Nat) = 1 ↔ dirStats.isFile = true) ∧
    ((2 : Nat) = 2 ↔ dirStats.kind ≠ NodeKind.regular) :=
  have h := Processor_entry_type demoFs [] ["a", "a.txt"]
    [ { path := "a", stats := dirStats, type := 2 },
      { path := "a.txt", stats := fileStats, type := 1 } ]
    (by decide) { path := "a", stats := dirStats, type := 2 } (by decide)
  ⟨by decide, h.2.1, h.2.2.2.1⟩

end FsCapture
